import Mathlib

/-!
Verification of the ED2K chunked streaming hasher.

The embedding mirrors `src/implementation.rs`: the streaming state machine
(`Ed2kState`, `Ed2kState.update`), the chunk-list accumulator (`ChunkList`)
and the three finalization policies (`Red`, `Blue`, `RedBlue`).  The MD4
block digest is an external collaborator of the crate (the `md4` crate);
it is modelled from the spec as the standard 128-bit MD4 digest over byte
sequences.  Bytes are modelled as natural numbers; the word-packing step
reduces them mod 256, so on valid byte values (< 256) the model agrees
with the Rust `u8` semantics.
-/

/-! ### MD4, the external block digest -/

/-- Modelled from the spec: the external 128-bit block digest (the `md4`
crate, absent from this repository).  `w32` is the 32-bit word modulus. -/
def w32 : Nat := 4294967296

/-- Modelled from the spec: 32-bit left rotation by `n` of a word `x < 2^32`. -/
def rotl (n x : Nat) : Nat := ((x <<< n) ||| (x >>> (32 - n))) % w32

/-- Modelled from the spec: MD4 round-1 boolean function `F(x,y,z) = xy ∨ ¬x z`. -/
def fF (x y z : Nat) : Nat := (x &&& y) ||| ((x ^^^ 4294967295) &&& z)

/-- Modelled from the spec: MD4 round-2 boolean function `G(x,y,z) = xy ∨ xz ∨ yz`. -/
def fG (x y z : Nat) : Nat := (x &&& y) ||| (x &&& z) ||| (y &&& z)

/-- Modelled from the spec: MD4 round-3 boolean function `H(x,y,z) = x ⊕ y ⊕ z`. -/
def fH (x y z : Nat) : Nat := x ^^^ y ^^^ z

/-- Modelled from the spec: one MD4 round-1 step. -/
def st1 (a b c d x s : Nat) : Nat := rotl s ((a + fF b c d + x) % w32)

/-- Modelled from the spec: one MD4 round-2 step (constant `0x5A827999`). -/
def st2 (a b c d x s : Nat) : Nat := rotl s ((a + fG b c d + x + 1518500249) % w32)

/-- Modelled from the spec: one MD4 round-3 step (constant `0x6ED9EBA1`). -/
def st3 (a b c d x s : Nat) : Nat := rotl s ((a + fH b c d + x + 1859775393) % w32)

/-- Modelled from the spec: the MD4 compression function on one 16-word
block, acting on the four 32-bit state words packed little-endian into one
natural number. -/
def md4c (X : List Nat) (s : Nat) : Nat :=
  match X with
  | [x0,x1,x2,x3,x4,x5,x6,x7,x8,x9,x10,x11,x12,x13,x14,x15] =>
    let a0 := s % w32
    let b0 := s / w32 % w32
    let c0 := s / w32 / w32 % w32
    let d0 := s / w32 / w32 / w32 % w32
    let a1 := st1 a0 b0 c0 d0 x0 3
    let d1 := st1 d0 a1 b0 c0 x1 7
    let c1 := st1 c0 d1 a1 b0 x2 11
    let b1 := st1 b0 c1 d1 a1 x3 19
    let a2 := st1 a1 b1 c1 d1 x4 3
    let d2 := st1 d1 a2 b1 c1 x5 7
    let c2 := st1 c1 d2 a2 b1 x6 11
    let b2 := st1 b1 c2 d2 a2 x7 19
    let a3 := st1 a2 b2 c2 d2 x8 3
    let d3 := st1 d2 a3 b2 c2 x9 7
    let c3 := st1 c2 d3 a3 b2 x10 11
    let b3 := st1 b2 c3 d3 a3 x11 19
    let a4 := st1 a3 b3 c3 d3 x12 3
    let d4 := st1 d3 a4 b3 c3 x13 7
    let c4 := st1 c3 d4 a4 b3 x14 11
    let b4 := st1 b3 c4 d4 a4 x15 19
    let a5 := st2 a4 b4 c4 d4 x0 3
    let d5 := st2 d4 a5 b4 c4 x4 5
    let c5 := st2 c4 d5 a5 b4 x8 9
    let b5 := st2 b4 c5 d5 a5 x12 13
    let a6 := st2 a5 b5 c5 d5 x1 3
    let d6 := st2 d5 a6 b5 c5 x5 5
    let c6 := st2 c5 d6 a6 b5 x9 9
    let b6 := st2 b5 c6 d6 a6 x13 13
    let a7 := st2 a6 b6 c6 d6 x2 3
    let d7 := st2 d6 a7 b6 c6 x6 5
    let c7 := st2 c6 d7 a7 b6 x10 9
    let b7 := st2 b6 c7 d7 a7 x14 13
    let a8 := st2 a7 b7 c7 d7 x3 3
    let d8 := st2 d7 a8 b7 c7 x7 5
    let c8 := st2 c7 d8 a8 b7 x11 9
    let b8 := st2 b7 c8 d8 a8 x15 13
    let a9 := st3 a8 b8 c8 d8 x0 3
    let d9 := st3 d8 a9 b8 c8 x8 9
    let c9 := st3 c8 d9 a9 b8 x4 11
    let b9 := st3 b8 c9 d9 a9 x12 15
    let a10 := st3 a9 b9 c9 d9 x2 3
    let d10 := st3 d9 a10 b9 c9 x10 9
    let c10 := st3 c9 d10 a10 b9 x6 11
    let b10 := st3 b9 c10 d10 a10 x14 15
    let a11 := st3 a10 b10 c10 d10 x1 3
    let d11 := st3 d10 a11 b10 c10 x9 9
    let c11 := st3 c10 d11 a11 b10 x5 11
    let b11 := st3 b10 c11 d11 a11 x13 15
    let a12 := st3 a11 b11 c11 d11 x3 3
    let d12 := st3 d11 a12 b11 c11 x11 9
    let c12 := st3 c11 d12 a12 b11 x7 11
    let b12 := st3 b11 c12 d12 a12 x15 15
    (a0 + a12) % w32
    + w32 * ((b0 + b12) % w32
    + w32 * ((c0 + c12) % w32
    + w32 * ((d0 + d12) % w32)))
  | _ => s

/-- Modelled from the spec: the MD4 initial state `0x67452301, 0xefcdab89,
0x98badcfe, 0x10325476`, packed little-endian. -/
def md4Init : Nat :=
  1732584193 + w32 * (4023233417 + w32 * (2562383102 + w32 * 271733878))

/-- Modelled from the spec: fold the compression function over the blocks. -/
def md4Run : List (List Nat) → Nat → Nat
  | [], s => s
  | b :: bs, s => md4Run bs (md4c b s)

/-- Modelled from the spec: the `k` little-endian base-256 digits of `n`. -/
def leBytes (k n : Nat) : List Nat :=
  (List.range k).map (fun i => n / 256 ^ i % 256)

/-- Modelled from the spec: MD4 padding — append `0x80`, zeros up to 56 mod
64 bytes, then the 64-bit little-endian bit count. -/
def md4Pad (msg : List Nat) : List Nat :=
  msg ++ 128 :: List.replicate ((119 - msg.length % 64) % 64) 0
      ++ leBytes 8 (msg.length * 8)

/-- Modelled from the spec: pack bytes into little-endian 32-bit words. -/
def toWords : List Nat → List Nat
  | b0 :: b1 :: b2 :: b3 :: rest =>
    (b0 % 256 + 256 * (b1 % 256) + 65536 * (b2 % 256) + 16777216 * (b3 % 256)) :: toWords rest
  | _ => []

/-- Modelled from the spec: split a padded message into 16-word blocks. -/
def toBlocks (data : List Nat) : List (List Nat) :=
  if _h : 64 ≤ data.length then toWords (data.take 64) :: toBlocks (data.drop 64)
  else []
termination_by data.length
decreasing_by simp; omega

/-- Modelled from the spec: the MD4 digest of a byte sequence, as 16 bytes. -/
def md4 (msg : List Nat) : List Nat :=
  leBytes 16 (md4Run (toBlocks (md4Pad msg)) md4Init)

/-! ### The ED2K core, from `src/implementation.rs` -/

/-- `const CHUNK_SIZE: usize = 9728000;` -/
def CHUNK_SIZE : Nat := 9728000

/-- The chunk-list accumulator (`struct ChunkList`).  The streaming `Md4`
field `hasher` is modelled by the byte sequence it has absorbed so far. -/
structure ChunkList where
  hasher : List Nat
  first_chunk : List Nat
  chunk_counter : Nat
deriving Repr, DecidableEq

/-- `ChunkList::default()`: fresh `Md4`, zeroed 16-byte array, zero count. -/
def ChunkList.init : ChunkList :=
  { hasher := [], first_chunk := List.replicate 16 0, chunk_counter := 0 }

/-- `ChunkList::add_chunk`: record the first chunk hash, bump the counter,
feed the hash to the running list hasher. -/
def ChunkList.add_chunk (cl : ChunkList) (hash : List Nat) : ChunkList :=
  { hasher := cl.hasher ++ hash
    first_chunk := if cl.chunk_counter = 0 then hash else cl.first_chunk
    chunk_counter := cl.chunk_counter + 1 }

/-- `ChunkList::reset`. -/
def ChunkList.reset (_cl : ChunkList) : ChunkList :=
  { hasher := [], first_chunk := List.replicate 16 0, chunk_counter := 0 }

/-- `ChunkList::copy_first_chunk` (the copied-out value). -/
def ChunkList.copy_first_chunk (cl : ChunkList) : List Nat :=
  cl.first_chunk

/-- The `debug_assert!(self.chunk_counter > 0)` guarding
`ChunkList::copy_first_chunk`. -/
def ChunkList.first_chunk_assert (cl : ChunkList) : Prop :=
  0 < cl.chunk_counter

/-- `ChunkList::copy_list_hash_reset`: the finalized list hash together
with the chunk list after its hasher was reset. -/
def ChunkList.copy_list_hash_reset (cl : ChunkList) : List Nat × ChunkList :=
  (md4 cl.hasher, { cl with hasher := [] })

/-- `struct Ed2kState`.  The streaming `Md4` chunk hasher is modelled by
the bytes of the current chunk absorbed so far. -/
structure Ed2kState where
  chunk_hasher : List Nat
  chunk_len : Nat
  chunk_list : ChunkList
deriving Repr, DecidableEq

/-- `Ed2kImpl::default()`. -/
def Ed2kState.init : Ed2kState :=
  { chunk_hasher := [], chunk_len := 0, chunk_list := ChunkList.init }

/-- `Ed2kState::hash_chunk`: finalize-and-reset the chunk hasher, zero the
chunk length, append the chunk hash to the list. -/
def Ed2kState.hash_chunk (s : Ed2kState) : Ed2kState :=
  let hash := md4 s.chunk_hasher
  { chunk_hasher := [], chunk_len := 0, chunk_list := s.chunk_list.add_chunk hash }

/-- `<Ed2kImpl as Update>::update`: the `while !data.is_empty()` loop.  Each
pass moves `min(remaining, CHUNK_SIZE - chunk_len)` bytes into the chunk
hasher and completes the chunk when it reaches `CHUNK_SIZE` exactly.  The
`wlen = 0` escape corresponds to the state `chunk_len ≥ CHUNK_SIZE`, which
is unreachable (the Rust loop has no exit there either: `CHUNK_SIZE -
chunk_len` underflows); the escape merely makes the model total. -/
def Ed2kState.update (s : Ed2kState) (data : List Nat) : Ed2kState :=
  if data.length = 0 then s
  else
    let free := CHUNK_SIZE - s.chunk_len
    let wlen := min data.length free
    if wlen = 0 then s
    else
      let s' : Ed2kState :=
        { s with chunk_hasher := s.chunk_hasher ++ data.take wlen
                 chunk_len := s.chunk_len + wlen }
      let s'' := if s'.chunk_len = CHUNK_SIZE then s'.hash_chunk else s'
      s''.update (data.drop wlen)
termination_by data.length
decreasing_by simp; omega

/-- `<Ed2kImpl as Reset>::reset`. -/
def Ed2kState.reset (s : Ed2kState) : Ed2kState :=
  { chunk_hasher := [], chunk_len := 0, chunk_list := s.chunk_list.reset }

/-- `<Red as Ed2kColor>::finalize_ref` (output, post state). -/
def Red.finalize_ref (s : Ed2kState) : List Nat × Ed2kState :=
  if s.chunk_list.chunk_counter = 0 then
    -- input data was less than a chunk
    let s' := s.hash_chunk
    (s'.chunk_list.copy_first_chunk, s')
  else
    -- ends between chunk boundaries, or exactly on one: hash the
    -- (possibly empty) trailing chunk and emit the list hash
    let s' := s.hash_chunk
    let r := s'.chunk_list.copy_list_hash_reset
    (r.1, { s' with chunk_list := r.2 })

/-- `<Blue as Ed2kColor>::finalize_ref` (output, post state). -/
def Blue.finalize_ref (s : Ed2kState) : List Nat × Ed2kState :=
  if s.chunk_list.chunk_counter = 0 then
    -- input data was less than a chunk
    let s' := s.hash_chunk
    (s'.chunk_list.copy_first_chunk, s')
  else if s.chunk_len ≠ 0 then
    -- ends between two chunk boundaries
    let s' := s.hash_chunk
    let r := s'.chunk_list.copy_list_hash_reset
    (r.1, { s' with chunk_list := r.2 })
  else if s.chunk_list.chunk_counter = 1 then
    -- exactly one full chunk: its digest is the output
    (s.chunk_list.copy_first_chunk, s)
  else
    -- a multiple of the chunk size: list hash with no extra entry
    let r := s.chunk_list.copy_list_hash_reset
    (r.1, { s with chunk_list := r.2 })

/-- `<RedBlue as Ed2kColor>::finalize_ref` (output `red ++ blue`, post state). -/
def RedBlue.finalize_ref (s : Ed2kState) : List Nat × Ed2kState :=
  if s.chunk_list.chunk_counter = 0 then
    let s' := s.hash_chunk
    let r := s'.chunk_list.copy_first_chunk
    (r ++ r, s')
  else if s.chunk_len ≠ 0 then
    let s' := s.hash_chunk
    let r := s'.chunk_list.copy_list_hash_reset
    (r.1 ++ r.1, { s' with chunk_list := r.2 })
  else
    -- blue first, on a cheap clone of the list when it must survive
    let blue_out :=
      if s.chunk_list.chunk_counter = 1 then s.chunk_list.copy_first_chunk
      else (s.chunk_list.copy_list_hash_reset).1
    let s' := s.hash_chunk
    let r := s'.chunk_list.copy_list_hash_reset
    (r.1 ++ blue_out, { s' with chunk_list := r.2 })

/-- `<Ed2kImpl as FixedOutputReset>::finalize_into_reset` for `Red`. -/
def Red.finalize_into_reset (s : Ed2kState) : List Nat × Ed2kState :=
  let r := Red.finalize_ref s
  (r.1, r.2.reset)

/-- `<Ed2kImpl as FixedOutputReset>::finalize_into_reset` for `Blue`. -/
def Blue.finalize_into_reset (s : Ed2kState) : List Nat × Ed2kState :=
  let r := Blue.finalize_ref s
  (r.1, r.2.reset)

/-- `<Ed2kImpl as FixedOutputReset>::finalize_into_reset` for `RedBlue`. -/
def RedBlue.finalize_into_reset (s : Ed2kState) : List Nat × Ed2kState :=
  let r := RedBlue.finalize_ref s
  (r.1, r.2.reset)

/-- One-shot `Ed2kRed::digest`. -/
def Red.digest (data : List Nat) : List Nat :=
  (Red.finalize_ref (Ed2kState.init.update data)).1

/-- One-shot `Ed2kBlue::digest`. -/
def Blue.digest (data : List Nat) : List Nat :=
  (Blue.finalize_ref (Ed2kState.init.update data)).1

/-- One-shot `Ed2kRedBlue::digest`. -/
def RedBlue.digest (data : List Nat) : List Nat :=
  (RedBlue.finalize_ref (Ed2kState.init.update data)).1

/-- Absorb a list of slices in order (repeated `update` calls). -/
def Ed2kState.updateMulti (s : Ed2kState) (ps : List (List Nat)) : Ed2kState :=
  ps.foldl Ed2kState.update s

/-! ### Specification-level chunk decomposition -/

/-- The digests of the successive full `CHUNK_SIZE`-byte chunks of `data`. -/
def chunkDigests (data : List Nat) : List (List Nat) :=
  if _h : CHUNK_SIZE ≤ data.length then
    md4 (data.take CHUNK_SIZE) :: chunkDigests (data.drop CHUNK_SIZE)
  else []
termination_by data.length
decreasing_by simp only [List.length_drop, CHUNK_SIZE] at *; omega

/-- Feed a list of chunk hashes to a chunk list in order. -/
def ChunkList.addChunks (cl : ChunkList) (ds : List (List Nat)) : ChunkList :=
  ds.foldl ChunkList.add_chunk cl

/-- One pass of the `update` loop restricted to a single byte; the loop is
equivalent to folding this over the input (proved below). -/
def Ed2kState.stepByte (s : Ed2kState) (b : Nat) : Ed2kState :=
  let s' : Ed2kState :=
    { s with chunk_hasher := s.chunk_hasher ++ [b], chunk_len := s.chunk_len + 1 }
  if s'.chunk_len = CHUNK_SIZE then s'.hash_chunk else s'

/-- The branch structure of `Red::finalize_ref`: `copy_first_chunk` is
reached only in the sub-chunk branch, right after `hash_chunk`. -/
def Red.assertsOk (s : Ed2kState) : Prop :=
  s.chunk_list.chunk_counter = 0 → (s.hash_chunk).chunk_list.first_chunk_assert

/-- The branch structure of `Blue::finalize_ref`: `copy_first_chunk` is
reached in the sub-chunk branch (after `hash_chunk`) and in the
single-exact-chunk branch (`chunk_counter = 1`). -/
def Blue.assertsOk (s : Ed2kState) : Prop :=
  (s.chunk_list.chunk_counter = 0 → (s.hash_chunk).chunk_list.first_chunk_assert) ∧
  (s.chunk_list.chunk_counter ≠ 0 → s.chunk_len = 0 →
    s.chunk_list.chunk_counter = 1 → s.chunk_list.first_chunk_assert)

/-- The branch structure of `RedBlue::finalize_ref`: `copy_first_chunk` is
reached in the sub-chunk branch (after `hash_chunk`) and, for the blue
half, in the single-exact-chunk branch. -/
def RedBlue.assertsOk (s : Ed2kState) : Prop :=
  (s.chunk_list.chunk_counter = 0 → (s.hash_chunk).chunk_list.first_chunk_assert) ∧
  (s.chunk_list.chunk_counter ≠ 0 → s.chunk_len = 0 →
    s.chunk_list.chunk_counter = 1 → s.chunk_list.first_chunk_assert)

/-! ### Basic facts -/

theorem chunk_size_pos : 0 < CHUNK_SIZE := by decide

theorem md4_length (msg : List Nat) : (md4 msg).length = 16 := by
  simp [md4, leBytes]

theorem stepByte_chunk_len_lt (s : Ed2kState) (b : Nat)
    (h : s.chunk_len < CHUNK_SIZE) : (s.stepByte b).chunk_len < CHUNK_SIZE := by
  unfold Ed2kState.stepByte
  dsimp only
  split
  · simp only [Ed2kState.hash_chunk]
    exact chunk_size_pos
  · rename_i hne
    simp only at hne ⊢
    omega

theorem foldl_stepByte_chunk_len_lt (data : List Nat) : ∀ (s : Ed2kState),
    s.chunk_len < CHUNK_SIZE →
    (data.foldl Ed2kState.stepByte s).chunk_len < CHUNK_SIZE := by
  induction data with
  | nil => intro s h; exact h
  | cons b rest ih =>
    intro s h
    exact ih _ (stepByte_chunk_len_lt s b h)

theorem foldl_stepByte_fill (data : List Nat) : ∀ (s : Ed2kState),
    s.chunk_len < CHUNK_SIZE → s.chunk_len + data.length ≤ CHUNK_SIZE →
    data.foldl Ed2kState.stepByte s =
      (let s' : Ed2kState :=
        { s with chunk_hasher := s.chunk_hasher ++ data
                 chunk_len := s.chunk_len + data.length }
       if s'.chunk_len = CHUNK_SIZE then s'.hash_chunk else s') := by
  induction data with
  | nil =>
    intro s hlt _hle
    simp only [List.foldl_nil, List.length_nil, List.append_nil, Nat.add_zero]
    rw [if_neg (by omega)]
  | cons b rest ih =>
    intro s hlt hle
    simp only [List.length_cons] at hle
    simp only [List.foldl_cons, List.length_cons]
    by_cases hfull : s.chunk_len + 1 = CHUNK_SIZE
    · have hrest : rest = [] := by
        have : rest.length = 0 := by omega
        exact List.length_eq_zero.mp this
      subst hrest
      have hstep : s.stepByte b =
          ({ s with chunk_hasher := s.chunk_hasher ++ [b],
                    chunk_len := s.chunk_len + 1 } : Ed2kState).hash_chunk := by
        unfold Ed2kState.stepByte
        dsimp only
        rw [if_pos hfull]
      simp only [List.foldl_nil, List.length_nil, hstep]
      rw [if_pos (by simpa using hfull)]
    · have hstep : s.stepByte b =
          { s with chunk_hasher := s.chunk_hasher ++ [b], chunk_len := s.chunk_len + 1 } := by
        unfold Ed2kState.stepByte
        dsimp only
        rw [if_neg hfull]
      rw [hstep]
      rw [ih _ (by dsimp only; omega) (by dsimp only; omega)]
      have h1 : s.chunk_hasher ++ [b] ++ rest = s.chunk_hasher ++ b :: rest := by simp
      have h2 : s.chunk_len + 1 + rest.length = s.chunk_len + (rest.length + 1) := by omega
      dsimp only
      rw [h1, h2]

theorem update_eq_foldl_aux (n : Nat) : ∀ (data : List Nat), data.length ≤ n →
    ∀ (s : Ed2kState), s.chunk_len < CHUNK_SIZE →
    s.update data = data.foldl Ed2kState.stepByte s := by
  induction n with
  | zero =>
    intro data hn s hlt
    have hdata : data = [] := List.length_eq_zero.mp (by omega)
    subst hdata
    rw [Ed2kState.update]
    simp
  | succ n ih =>
    intro data hn s hlt
    rw [Ed2kState.update]
    by_cases hnil : data.length = 0
    · rw [if_pos hnil]
      have hdata : data = [] := List.length_eq_zero.mp hnil
      subst hdata
      simp
    · rw [if_neg hnil]
      dsimp only
      have hwlen0 : ¬ (min data.length (CHUNK_SIZE - s.chunk_len) = 0) := by omega
      rw [if_neg hwlen0]
      have hwle : min data.length (CHUNK_SIZE - s.chunk_len) ≤ data.length := Nat.min_le_left _ _
      conv_rhs => rw [← List.take_append_drop (min data.length (CHUNK_SIZE - s.chunk_len)) data]
      rw [List.foldl_append]
      rw [foldl_stepByte_fill _ _ hlt (by rw [List.length_take]; omega)]
      dsimp only
      rw [List.length_take, Nat.min_eq_left hwle]
      set wlen := min data.length (CHUNK_SIZE - s.chunk_len) with hw
      split
      · rename_i hfull
        rw [ih (data.drop wlen) (by rw [List.length_drop]; omega) _
            (by simp only [Ed2kState.hash_chunk]; exact chunk_size_pos)]
      · rename_i hnotfull
        rw [ih (data.drop wlen) (by rw [List.length_drop]; omega) _ (by dsimp only; omega)]

theorem update_eq_foldl (s : Ed2kState) (data : List Nat)
    (hlt : s.chunk_len < CHUNK_SIZE) :
    s.update data = data.foldl Ed2kState.stepByte s :=
  update_eq_foldl_aux data.length data le_rfl s hlt

theorem update_chunk_len_lt (s : Ed2kState) (data : List Nat)
    (hlt : s.chunk_len < CHUNK_SIZE) :
    (s.update data).chunk_len < CHUNK_SIZE := by
  rw [update_eq_foldl s data hlt]
  exact foldl_stepByte_chunk_len_lt data s hlt

theorem update_append (s : Ed2kState) (a b : List Nat)
    (hlt : s.chunk_len < CHUNK_SIZE) :
    s.update (a ++ b) = (s.update a).update b := by
  have h1 := update_eq_foldl s a hlt
  have h2 : (s.update a).chunk_len < CHUNK_SIZE := update_chunk_len_lt s a hlt
  rw [update_eq_foldl s (a ++ b) hlt, List.foldl_append, ← h1,
    ← update_eq_foldl (s.update a) b h2]

theorem update_nil (s : Ed2kState) : s.update [] = s := by
  rw [Ed2kState.update]
  simp

theorem update_boundary_aux (n : Nat) : ∀ (data : List Nat), data.length ≤ n →
    ∀ (cl : ChunkList),
    (Ed2kState.mk [] 0 cl).update data =
      Ed2kState.mk (data.drop (CHUNK_SIZE * (data.length / CHUNK_SIZE)))
        (data.length % CHUNK_SIZE)
        (cl.addChunks (chunkDigests data)) := by
  have hC := chunk_size_pos
  induction n with
  | zero =>
    intro data hn cl
    have hdata : data = [] := List.length_eq_zero.mp (by omega)
    subst hdata
    rw [update_nil, chunkDigests]
    rw [dif_neg (by simp; omega)]
    simp [ChunkList.addChunks]
  | succ n ih =>
    intro data hn cl
    by_cases hnil : data.length = 0
    · have hdata : data = [] := List.length_eq_zero.mp hnil
      subst hdata
      rw [update_nil, chunkDigests]
      rw [dif_neg (by simp; omega)]
      simp [ChunkList.addChunks]
    · by_cases hCle : CHUNK_SIZE ≤ data.length
      · -- at least one full chunk is completed in this pass
        rw [Ed2kState.update]
        rw [if_neg hnil]
        dsimp only
        rw [show min data.length (CHUNK_SIZE - 0) = CHUNK_SIZE by omega]
        rw [if_neg (by omega)]
        rw [if_pos (by omega)]
        have hhash : (Ed2kState.mk ([] ++ data.take CHUNK_SIZE) (0 + CHUNK_SIZE) cl).hash_chunk
            = Ed2kState.mk [] 0 (cl.add_chunk (md4 (data.take CHUNK_SIZE))) := by
          simp [Ed2kState.hash_chunk]
        rw [hhash]
        conv_rhs => rw [chunkDigests]
        rw [dif_pos hCle]
        rw [ih (data.drop CHUNK_SIZE) (by rw [List.length_drop]; omega) _]
        simp only [Ed2kState.mk.injEq]
        refine ⟨?_, ?_, ?_⟩
        · rw [List.drop_drop]
          congr 1
          simp only [List.length_drop, CHUNK_SIZE] at *
          omega
        · simp only [List.length_drop, CHUNK_SIZE] at *
          omega
        · simp [ChunkList.addChunks]
      · -- the whole remaining input fits in the current chunk
        rw [Ed2kState.update]
        rw [if_neg hnil]
        dsimp only
        rw [show min data.length (CHUNK_SIZE - 0) = data.length by omega]
        rw [if_neg hnil]
        rw [if_neg (by omega)]
        rw [List.take_length, List.drop_length, update_nil]
        rw [chunkDigests, dif_neg hCle]
        simp only [Ed2kState.mk.injEq]
        refine ⟨?_, ?_, ?_⟩
        · simp only [CHUNK_SIZE] at *
          rw [Nat.div_eq_of_lt (by omega), Nat.mul_zero, List.drop_zero]
          simp
        · simp only [CHUNK_SIZE] at *
          omega
        · simp [ChunkList.addChunks]

theorem update_boundary (data : List Nat) (cl : ChunkList) :
    (Ed2kState.mk [] 0 cl).update data =
      Ed2kState.mk (data.drop (CHUNK_SIZE * (data.length / CHUNK_SIZE)))
        (data.length % CHUNK_SIZE)
        (cl.addChunks (chunkDigests data)) :=
  update_boundary_aux data.length data le_rfl cl

theorem update_init (data : List Nat) :
    Ed2kState.init.update data =
      Ed2kState.mk (data.drop (CHUNK_SIZE * (data.length / CHUNK_SIZE)))
        (data.length % CHUNK_SIZE)
        (ChunkList.init.addChunks (chunkDigests data)) :=
  update_boundary data ChunkList.init

theorem addChunks_counter (ds : List (List Nat)) : ∀ (cl : ChunkList),
    (cl.addChunks ds).chunk_counter = cl.chunk_counter + ds.length := by
  induction ds with
  | nil => intro cl; simp [ChunkList.addChunks]
  | cons d ds ih =>
    intro cl
    simp only [ChunkList.addChunks, List.foldl_cons] at *
    rw [ih]
    simp [ChunkList.add_chunk]
    omega

theorem addChunks_hasher (ds : List (List Nat)) : ∀ (cl : ChunkList),
    (cl.addChunks ds).hasher = cl.hasher ++ ds.flatten := by
  induction ds with
  | nil => intro cl; simp [ChunkList.addChunks]
  | cons d ds ih =>
    intro cl
    simp only [ChunkList.addChunks, List.foldl_cons] at *
    rw [ih]
    simp [ChunkList.add_chunk]

theorem addChunks_first_chunk (ds : List (List Nat)) : ∀ (cl : ChunkList),
    (cl.addChunks ds).first_chunk =
      if cl.chunk_counter = 0 then ds.headD cl.first_chunk else cl.first_chunk := by
  induction ds with
  | nil => intro cl; simp [ChunkList.addChunks]
  | cons d ds ih =>
    intro cl
    simp only [ChunkList.addChunks, List.foldl_cons] at *
    rw [ih]
    simp [ChunkList.add_chunk, List.headD]

theorem chunkDigests_length_aux (n : Nat) : ∀ (data : List Nat), data.length ≤ n →
    (chunkDigests data).length = data.length / CHUNK_SIZE := by
  have hC := chunk_size_pos
  induction n with
  | zero =>
    intro data hn
    rw [chunkDigests, dif_neg (by omega)]
    simp only [List.length_nil, CHUNK_SIZE] at *
    omega
  | succ n ih =>
    intro data hn
    by_cases hCle : CHUNK_SIZE ≤ data.length
    · rw [chunkDigests, dif_pos hCle]
      simp only [List.length_cons]
      rw [ih (data.drop CHUNK_SIZE) (by rw [List.length_drop]; omega)]
      simp only [List.length_drop, CHUNK_SIZE] at *
      omega
    · rw [chunkDigests, dif_neg hCle]
      simp only [List.length_nil, CHUNK_SIZE] at *
      omega

theorem chunkDigests_length (data : List Nat) :
    (chunkDigests data).length = data.length / CHUNK_SIZE :=
  chunkDigests_length_aux data.length data le_rfl

theorem chunkDigests_head (data : List Nat) (h : CHUNK_SIZE ≤ data.length) :
    chunkDigests data = md4 (data.take CHUNK_SIZE) :: chunkDigests (data.drop CHUNK_SIZE) := by
  rw [chunkDigests, dif_pos h]

theorem finalize_rb_concat (s : Ed2kState) :
    (RedBlue.finalize_ref s).1 = (Red.finalize_ref s).1 ++ (Blue.finalize_ref s).1 := by
  unfold RedBlue.finalize_ref Red.finalize_ref Blue.finalize_ref
  split_ifs <;> simp_all

theorem red_finalize_length (s : Ed2kState) : (Red.finalize_ref s).1.length = 16 := by
  unfold Red.finalize_ref
  split_ifs with h
  · simp [Ed2kState.hash_chunk, ChunkList.copy_first_chunk, ChunkList.add_chunk, h, md4_length]
  · simp [ChunkList.copy_list_hash_reset, md4_length]

theorem blue_finalize_length (s : Ed2kState)
    (hfc : s.chunk_list.first_chunk.length = 16) :
    (Blue.finalize_ref s).1.length = 16 := by
  unfold Blue.finalize_ref
  split_ifs with h1 h2 h3
  · simp [Ed2kState.hash_chunk, ChunkList.copy_first_chunk, ChunkList.add_chunk, h1, md4_length]
  · simp [ChunkList.copy_list_hash_reset, md4_length]
  · simpa [ChunkList.copy_first_chunk] using hfc
  · simp [ChunkList.copy_list_hash_reset, md4_length]

theorem headD_chunkDigests_length (data : List Nat) :
    ((chunkDigests data).headD (List.replicate 16 0)).length = 16 := by
  by_cases h : CHUNK_SIZE ≤ data.length
  · rw [chunkDigests_head data h]
    simp [md4_length]
  · rw [chunkDigests, dif_neg h]
    simp

theorem update_init_first_chunk (data : List Nat) :
    (Ed2kState.init.update data).chunk_list.first_chunk.length = 16 := by
  rw [update_init]
  dsimp only
  rw [addChunks_first_chunk]
  simp only [ChunkList.init, if_pos rfl]
  exact headD_chunkDigests_length data

/-- C1: for every input byte sequence, the 32-byte RedBlue digest is the
16-byte Red digest immediately followed by the 16-byte Blue digest of the
same input (Red first). -/
theorem C1_redblue_concat (data : List Nat) :
    RedBlue.digest data = Red.digest data ++ Blue.digest data ∧
    (Red.digest data).length = 16 ∧ (Blue.digest data).length = 16 ∧
    (RedBlue.digest data).length = 32 := by
  have hconcat : RedBlue.digest data = Red.digest data ++ Blue.digest data :=
    finalize_rb_concat (Ed2kState.init.update data)
  have hr : (Red.digest data).length = 16 := red_finalize_length _
  have hb : (Blue.digest data).length = 16 :=
    blue_finalize_length _ (update_init_first_chunk data)
  refine ⟨hconcat, hr, hb, ?_⟩
  rw [hconcat, List.length_append, hr, hb]

theorem updateMulti_flatten (ps : List (List Nat)) : ∀ (s : Ed2kState),
    s.chunk_len < CHUNK_SIZE → s.updateMulti ps = s.update ps.flatten := by
  induction ps with
  | nil => intro s _; simp [Ed2kState.updateMulti, update_nil]
  | cons p ps ih =>
    intro s hlt
    simp only [Ed2kState.updateMulti, List.foldl_cons, List.flatten_cons]
    rw [update_append s p ps.flatten hlt]
    exact ih (s.update p) (update_chunk_len_lt s p hlt)

/-- C4: split-invariance — absorbing any partition of `S` piece by piece and
then finalizing gives exactly the one-shot digest of `S`, for every variant;
the stream state itself is the same as after one absorption of all of `S`. -/
theorem C4_split_invariance (ps : List (List Nat)) :
    Ed2kState.init.updateMulti ps = Ed2kState.init.update ps.flatten ∧
    (Red.finalize_ref (Ed2kState.init.updateMulti ps)).1 = Red.digest ps.flatten ∧
    (Blue.finalize_ref (Ed2kState.init.updateMulti ps)).1 = Blue.digest ps.flatten ∧
    (RedBlue.finalize_ref (Ed2kState.init.updateMulti ps)).1 = RedBlue.digest ps.flatten := by
  have hstate : Ed2kState.init.updateMulti ps = Ed2kState.init.update ps.flatten :=
    updateMulti_flatten ps Ed2kState.init chunk_size_pos
  refine ⟨hstate, ?_, ?_, ?_⟩ <;> rw [hstate] <;> rfl

theorem reset_eq_init (s : Ed2kState) : s.reset = Ed2kState.init := rfl

/-- C7: reset correctness — each variant's `finalize_into_reset` leaves the
stream state equal to the freshly constructed state (empty buffer, zero
count, cleared first chunk, reset accumulator), so the next computation on
any input `T` yields exactly `digest T`, whatever preceded the reset. -/
theorem C7_reset_correctness (s : Ed2kState) (T : List Nat) :
    (Red.finalize_into_reset s).2 = Ed2kState.init ∧
    (Blue.finalize_into_reset s).2 = Ed2kState.init ∧
    (RedBlue.finalize_into_reset s).2 = Ed2kState.init ∧
    (Red.finalize_ref (((Red.finalize_into_reset s).2).update T)).1 = Red.digest T ∧
    (Blue.finalize_ref (((Blue.finalize_into_reset s).2).update T)).1 = Blue.digest T ∧
    (RedBlue.finalize_ref (((RedBlue.finalize_into_reset s).2).update T)).1
      = RedBlue.digest T := by
  refine ⟨rfl, rfl, rfl, rfl, rfl, rfl⟩

theorem update_init_small (S : List Nat) (h : S.length < CHUNK_SIZE) :
    Ed2kState.init.update S = Ed2kState.mk S S.length ChunkList.init := by
  rw [update_init]
  rw [chunkDigests, dif_neg (by omega)]
  simp only [Ed2kState.mk.injEq]
  refine ⟨?_, ?_, ?_⟩
  · rw [Nat.div_eq_of_lt h, Nat.mul_zero, List.drop_zero]
  · exact Nat.mod_eq_of_lt h
  · simp [ChunkList.addChunks]

/-- C5: sub-chunk input — when the input is shorter than one chunk the
partial buffer is hashed as the one and only chunk and that digest is the
output of every variant: Red, Blue, and both halves of RedBlue agree. -/
theorem C5_sub_chunk (S : List Nat) (h : S.length < CHUNK_SIZE) :
    Red.digest S = md4 S ∧ Blue.digest S = md4 S ∧
    RedBlue.digest S = md4 S ++ md4 S ∧
    (RedBlue.digest S).take 16 = md4 S ∧ (RedBlue.digest S).drop 16 = md4 S := by
  have hred : Red.digest S = md4 S := by
    rw [Red.digest, update_init_small S h]
    simp [Red.finalize_ref, Ed2kState.hash_chunk, ChunkList.add_chunk,
      ChunkList.copy_first_chunk, ChunkList.init]
  have hblue : Blue.digest S = md4 S := by
    rw [Blue.digest, update_init_small S h]
    simp [Blue.finalize_ref, Ed2kState.hash_chunk, ChunkList.add_chunk,
      ChunkList.copy_first_chunk, ChunkList.init]
  have hrb : RedBlue.digest S = md4 S ++ md4 S := by
    rw [RedBlue.digest, update_init_small S h]
    simp [RedBlue.finalize_ref, Ed2kState.hash_chunk, ChunkList.add_chunk,
      ChunkList.copy_first_chunk, ChunkList.init]
  refine ⟨hred, hblue, hrb, ?_, ?_⟩
  · rw [hrb, show (16 : Nat) = (md4 S).length from (md4_length S).symm, List.take_left]
  · rw [hrb, show (16 : Nat) = (md4 S).length from (md4_length S).symm, List.drop_left]

theorem C5_sub_chunk_witness :
    ([] : List Nat).length < CHUNK_SIZE ∧
    (Red.digest [] = md4 [] ∧ Blue.digest [] = md4 [] ∧
     RedBlue.digest [] = md4 [] ++ md4 [] ∧
     (RedBlue.digest []).take 16 = md4 [] ∧ (RedBlue.digest []).drop 16 = md4 []) :=
  ⟨by decide, C5_sub_chunk [] (by decide)⟩

theorem update_init_exact (S : List Nat) (k : Nat) (hlen : S.length = k * CHUNK_SIZE) :
    Ed2kState.init.update S =
      Ed2kState.mk [] 0 (ChunkList.init.addChunks (chunkDigests S)) := by
  rw [update_init]
  simp only [Ed2kState.mk.injEq]
  refine ⟨?_, ?_, trivial⟩
  · apply List.drop_eq_nil_of_le
    rw [hlen, Nat.mul_div_cancel k chunk_size_pos]
    exact Nat.le_of_eq (Nat.mul_comm k CHUNK_SIZE)
  · rw [hlen]
    exact Nat.mul_mod_left k CHUNK_SIZE

theorem chunkDigests_length_exact (S : List Nat) (k : Nat)
    (hlen : S.length = k * CHUNK_SIZE) : (chunkDigests S).length = k := by
  rw [chunkDigests_length, hlen, Nat.mul_div_cancel k chunk_size_pos]

theorem addChunks_init_counter (S : List Nat) (k : Nat)
    (hlen : S.length = k * CHUNK_SIZE) :
    (ChunkList.init.addChunks (chunkDigests S)).chunk_counter = k := by
  rw [addChunks_counter, chunkDigests_length_exact S k hlen]
  simp [ChunkList.init]

/-- C2: Blue on an exact positive multiple of the chunk size adds no extra
empty chunk — with exactly one completed chunk the output is that chunk's
digest directly, with two or more it is the chunk-list accumulator's digest
over exactly the completed chunks' digests. -/
theorem C2_blue_exact_multiple (S : List Nat) (k : Nat) (hk : 1 ≤ k)
    (hlen : S.length = k * CHUNK_SIZE) :
    (chunkDigests S).length = k ∧
    (k = 1 → Blue.digest S = md4 S) ∧
    (2 ≤ k → Blue.digest S = md4 (chunkDigests S).flatten) := by
  have hcount := addChunks_init_counter S k hlen
  have hstate := update_init_exact S k hlen
  refine ⟨chunkDigests_length_exact S k hlen, ?_, ?_⟩
  · intro hk1
    subst hk1
    rw [Blue.digest, hstate]
    unfold Blue.finalize_ref
    dsimp only
    rw [hcount]
    rw [if_neg (by omega), if_neg (by simp), if_pos rfl]
    rw [ChunkList.copy_first_chunk, addChunks_first_chunk]
    have hC : CHUNK_SIZE ≤ S.length := by omega
    rw [chunkDigests_head S hC]
    simp [ChunkList.init, List.take_of_length_le (by omega : S.length ≤ CHUNK_SIZE)]
  · intro hk2
    rw [Blue.digest, hstate]
    unfold Blue.finalize_ref
    dsimp only
    rw [hcount]
    rw [if_neg (by omega), if_neg (by simp), if_neg (by omega)]
    rw [ChunkList.copy_list_hash_reset, addChunks_hasher]
    simp [ChunkList.init]

/-- C3: Red on an exact positive multiple of the chunk size hashes the empty
trailing buffer as one extra zero-length chunk, appends its digest to the
chunk list, and outputs the accumulator's digest over the completed chunks'
digests followed by that extra empty-chunk digest. -/
theorem C3_red_exact_multiple (S : List Nat) (k : Nat) (hk : 1 ≤ k)
    (hlen : S.length = k * CHUNK_SIZE) :
    (chunkDigests S).length = k ∧
    Red.digest S = md4 ((chunkDigests S).flatten ++ md4 []) := by
  have hcount := addChunks_init_counter S k hlen
  have hstate := update_init_exact S k hlen
  refine ⟨chunkDigests_length_exact S k hlen, ?_⟩
  rw [Red.digest, hstate]
  unfold Red.finalize_ref
  dsimp only
  rw [hcount]
  rw [if_neg (by omega)]
  rw [Ed2kState.hash_chunk]
  dsimp only
  rw [ChunkList.copy_list_hash_reset]
  dsimp only
  rw [ChunkList.add_chunk]
  dsimp only
  rw [addChunks_hasher]
  simp [ChunkList.init]


theorem repl_chunk_len : (List.replicate 9728000 (0 : Nat)).length = 1 * CHUNK_SIZE := by
  rw [List.length_replicate]
  simp only [CHUNK_SIZE]

theorem C2_blue_exact_multiple_witness :
    (1 ≤ 1 ∧ (List.replicate 9728000 (0 : Nat)).length = 1 * CHUNK_SIZE) ∧
    ((chunkDigests (List.replicate 9728000 0)).length = 1 ∧
     (1 = 1 → Blue.digest (List.replicate 9728000 0) = md4 (List.replicate 9728000 0)) ∧
     (2 ≤ 1 → Blue.digest (List.replicate 9728000 0)
        = md4 (chunkDigests (List.replicate 9728000 0)).flatten)) :=
  ⟨⟨le_rfl, repl_chunk_len⟩,
   C2_blue_exact_multiple (List.replicate 9728000 0) 1 le_rfl repl_chunk_len⟩

theorem C3_red_exact_multiple_witness :
    (1 ≤ 1 ∧ (List.replicate 9728000 (0 : Nat)).length = 1 * CHUNK_SIZE) ∧
    ((chunkDigests (List.replicate 9728000 0)).length = 1 ∧
     Red.digest (List.replicate 9728000 0)
       = md4 ((chunkDigests (List.replicate 9728000 0)).flatten ++ md4 [])) :=
  ⟨⟨le_rfl, repl_chunk_len⟩,
   C3_red_exact_multiple (List.replicate 9728000 0) 1 le_rfl repl_chunk_len⟩

theorem update_init_partial (S : List Nat) (k r : Nat) (hr0 : 0 < r)
    (hrC : r < CHUNK_SIZE) (hlen : S.length = k * CHUNK_SIZE + r) :
    Ed2kState.init.update S =
      Ed2kState.mk (S.drop (CHUNK_SIZE * k)) r
        (ChunkList.init.addChunks (chunkDigests S)) := by
  have hdiv : S.length / CHUNK_SIZE = k := by
    rw [hlen]; simp only [CHUNK_SIZE] at *; omega
  have hmod : S.length % CHUNK_SIZE = r := by
    rw [hlen]; simp only [CHUNK_SIZE] at *; omega
  rw [update_init, hdiv, hmod]

/-- C6: trailing partial data — with at least one completed chunk and a
non-empty partial buffer, every variant hashes the partial buffer as one
more chunk and outputs the chunk-list accumulator's digest over all
completed chunks including this last one; Red, Blue and both halves of
RedBlue agree. -/
theorem C6_trailing_partial (S : List Nat) (k r : Nat) (hk : 1 ≤ k)
    (hr0 : 0 < r) (hrC : r < CHUNK_SIZE) (hlen : S.length = k * CHUNK_SIZE + r) :
    (chunkDigests S).length = k ∧
    Red.digest S = md4 ((chunkDigests S).flatten ++ md4 (S.drop (CHUNK_SIZE * k))) ∧
    Blue.digest S = Red.digest S ∧
    RedBlue.digest S = Red.digest S ++ Red.digest S := by
  have hdiv : S.length / CHUNK_SIZE = k := by
    rw [hlen]; simp only [CHUNK_SIZE] at *; omega
  have hstate := update_init_partial S k r hr0 hrC hlen
  have hcount : (ChunkList.init.addChunks (chunkDigests S)).chunk_counter = k := by
    rw [addChunks_counter, chunkDigests_length, hdiv]
    simp [ChunkList.init]
  have hred : Red.digest S
      = md4 ((chunkDigests S).flatten ++ md4 (S.drop (CHUNK_SIZE * k))) := by
    rw [Red.digest, hstate]
    unfold Red.finalize_ref
    dsimp only
    rw [hcount]
    rw [if_neg (by omega)]
    rw [Ed2kState.hash_chunk]
    dsimp only
    rw [ChunkList.copy_list_hash_reset]
    dsimp only
    rw [ChunkList.add_chunk]
    dsimp only
    rw [addChunks_hasher]
    simp [ChunkList.init]
  have hblue : Blue.digest S = Red.digest S := by
    rw [Blue.digest, Red.digest, hstate]
    unfold Red.finalize_ref Blue.finalize_ref
    dsimp only
    rw [hcount]
    rw [if_neg (show ¬ (k = 0) by omega), if_pos (show (r ≠ 0) by omega),
      if_neg (show ¬ (k = 0) by omega)]
  have hrb : RedBlue.digest S = Red.digest S ++ Red.digest S := by
    rw [RedBlue.digest, Red.digest, hstate]
    unfold Red.finalize_ref RedBlue.finalize_ref
    dsimp only
    rw [hcount]
    rw [if_neg (show ¬ (k = 0) by omega), if_pos (show (r ≠ 0) by omega),
      if_neg (show ¬ (k = 0) by omega)]
  exact ⟨by rw [chunkDigests_length, hdiv], hred, hblue, hrb⟩

theorem repl_partial_len :
    (List.replicate 9728001 (0 : Nat)).length = 1 * CHUNK_SIZE + 1 := by
  rw [List.length_replicate]
  simp only [CHUNK_SIZE]

theorem C6_trailing_partial_witness :
    (1 ≤ 1 ∧ 0 < 1 ∧ 1 < CHUNK_SIZE ∧
     (List.replicate 9728001 (0 : Nat)).length = 1 * CHUNK_SIZE + 1) ∧
    ((chunkDigests (List.replicate 9728001 0)).length = 1 ∧
     Red.digest (List.replicate 9728001 0)
       = md4 ((chunkDigests (List.replicate 9728001 0)).flatten
           ++ md4 ((List.replicate 9728001 (0 : Nat)).drop (CHUNK_SIZE * 1))) ∧
     Blue.digest (List.replicate 9728001 0) = Red.digest (List.replicate 9728001 0) ∧
     RedBlue.digest (List.replicate 9728001 0)
       = Red.digest (List.replicate 9728001 0) ++ Red.digest (List.replicate 9728001 0)) :=
  ⟨⟨le_rfl, Nat.one_pos, by simp only [CHUNK_SIZE]; omega, repl_partial_len⟩,
   C6_trailing_partial (List.replicate 9728001 0) 1 1 le_rfl Nat.one_pos
     (by simp only [CHUNK_SIZE]; omega) repl_partial_len⟩

/-- C8: state invariant — after absorbing any sequence of slices totaling
`N` bytes from a fresh state, the partial buffer holds `N mod CHUNK_SIZE`
bytes (always less than `CHUNK_SIZE`), and when `N` is a positive exact
multiple of the chunk size the buffer is empty while the completed-chunk
count is at least one, unlike the just-started state whose count is zero. -/
theorem C8_state_invariant (ps : List (List Nat)) :
    (Ed2kState.init.updateMulti ps).chunk_len = ps.flatten.length % CHUNK_SIZE ∧
    (Ed2kState.init.updateMulti ps).chunk_hasher.length
      = ps.flatten.length % CHUNK_SIZE ∧
    ps.flatten.length % CHUNK_SIZE < CHUNK_SIZE ∧
    (Ed2kState.init.updateMulti ps).chunk_list.chunk_counter
      = ps.flatten.length / CHUNK_SIZE ∧
    (ps.flatten.length % CHUNK_SIZE = 0 → 0 < ps.flatten.length →
      (Ed2kState.init.updateMulti ps).chunk_hasher = [] ∧
      1 ≤ (Ed2kState.init.updateMulti ps).chunk_list.chunk_counter) := by
  rw [updateMulti_flatten ps Ed2kState.init chunk_size_pos, update_init]
  dsimp only
  refine ⟨rfl, ?_, Nat.mod_lt _ chunk_size_pos, ?_, ?_⟩
  · rw [List.length_drop]
    simp only [CHUNK_SIZE]
    omega
  · rw [addChunks_counter, chunkDigests_length]
    simp [ChunkList.init]
  · intro hmod hpos
    constructor
    · apply List.drop_eq_nil_of_le
      simp only [CHUNK_SIZE] at *
      omega
    · rw [addChunks_counter, chunkDigests_length]
      simp only [ChunkList.init, CHUNK_SIZE] at *
      omega

/-- C10: in every state reachable through the public operations, each
`copy_first_chunk` call site of the three finalizers runs with
`chunk_counter > 0`, so the `debug_assert!` inside it cannot fail: the
sub-chunk branches call it right after a chunk was hashed, and the
single-exact-chunk branches only when the counter is exactly one. -/
theorem C10_first_chunk_assert (ps : List (List Nat)) :
    Red.assertsOk (Ed2kState.init.updateMulti ps) ∧
    Blue.assertsOk (Ed2kState.init.updateMulti ps) ∧
    RedBlue.assertsOk (Ed2kState.init.updateMulti ps) := by
  have h : ∀ (s : Ed2kState),
      (s.chunk_list.chunk_counter = 0 →
        (s.hash_chunk).chunk_list.first_chunk_assert) ∧
      (s.chunk_list.chunk_counter ≠ 0 → s.chunk_len = 0 →
        s.chunk_list.chunk_counter = 1 → s.chunk_list.first_chunk_assert) := by
    intro s
    constructor
    · intro _
      simp [Ed2kState.hash_chunk, ChunkList.add_chunk, ChunkList.first_chunk_assert]
    · intro _ _ h1
      simp [ChunkList.first_chunk_assert, h1]
  exact ⟨(h _).1, h _, h _⟩

theorem toBlocks_cons (data : List Nat) (h : 64 ≤ data.length) :
    toBlocks data = toWords (data.take 64) :: toBlocks (data.drop 64) := by
  rw [toBlocks, dif_pos h]

theorem toBlocks_nil (data : List Nat) (h : data.length < 64) :
    toBlocks data = [] := by
  rw [toBlocks, dif_neg (by omega)]

/-- Published vector: MD4 of the empty message (and hence the ED2K hash of
the empty input) is `31d6cfe0d16ae931b73c59d7e0c089c0`. -/
theorem md4_empty_vector :
    md4 [] = [49, 214, 207, 224, 209, 106, 233, 49,
              183, 60, 89, 215, 224, 192, 137, 192] := by
  rw [md4, toBlocks_cons _ (by decide), toBlocks_nil _ (by decide)]
  decide

theorem ed2k_empty_vector :
    Blue.digest [] = [49, 214, 207, 224, 209, 106, 233, 49,
                      183, 60, 89, 215, 224, 192, 137, 192] ∧
    Red.digest [] = [49, 214, 207, 224, 209, 106, 233, 49,
                     183, 60, 89, 215, 224, 192, 137, 192] := by
  have hb : Blue.digest [] = md4 [] := by
    rw [Blue.digest, update_nil]
    simp [Blue.finalize_ref, Ed2kState.hash_chunk, ChunkList.add_chunk,
      ChunkList.copy_first_chunk, ChunkList.init, Ed2kState.init]
  have hr : Red.digest [] = md4 [] := by
    rw [Red.digest, update_nil]
    simp [Red.finalize_ref, Ed2kState.hash_chunk, ChunkList.add_chunk,
      ChunkList.copy_first_chunk, ChunkList.init, Ed2kState.init]
  rw [hb, hr, md4_empty_vector]
  exact ⟨rfl, rfl⟩

set_option maxRecDepth 100000 in
/-- Published vector: 412 zero bytes hash to
`a89605d61bb80c73ead447285c05f588` under both Red and Blue. -/
theorem md4_412_vector :
    md4 (List.replicate 412 0) = [168, 150, 5, 214, 27, 184, 12, 115,
                                  234, 212, 71, 40, 92, 5, 245, 136] := by
  rw [md4, toBlocks_cons _ (by decide), toBlocks_cons _ (by decide),
    toBlocks_cons _ (by decide), toBlocks_cons _ (by decide),
    toBlocks_cons _ (by decide), toBlocks_cons _ (by decide),
    toBlocks_cons _ (by decide), toBlocks_nil _ (by decide)]
  decide

set_option maxRecDepth 100000 in
theorem ed2k_412_vector :
    Blue.digest (List.replicate 412 0) = [168, 150, 5, 214, 27, 184, 12, 115,
                                          234, 212, 71, 40, 92, 5, 245, 136] ∧
    Red.digest (List.replicate 412 0) = [168, 150, 5, 214, 27, 184, 12, 115,
                                         234, 212, 71, 40, 92, 5, 245, 136] := by
  have hsmall : (List.replicate 412 (0 : Nat)).length < CHUNK_SIZE := by
    rw [List.length_replicate]
    simp only [CHUNK_SIZE]
    omega
  have hb : Blue.digest (List.replicate 412 0) = md4 (List.replicate 412 0) := by
    rw [Blue.digest, update_init_small _ hsmall]
    simp [Blue.finalize_ref, Ed2kState.hash_chunk, ChunkList.add_chunk,
      ChunkList.copy_first_chunk, ChunkList.init]
  have hr : Red.digest (List.replicate 412 0) = md4 (List.replicate 412 0) := by
    rw [Red.digest, update_init_small _ hsmall]
    simp [Red.finalize_ref, Ed2kState.hash_chunk, ChunkList.add_chunk,
      ChunkList.copy_first_chunk, ChunkList.init]
  rw [hb, hr, md4_412_vector]
  exact ⟨rfl, rfl⟩
